import Mathlib

set_option linter.unusedSectionVars false

/-!
Verification of the SimpleVector container (src/simple-vector/simple_vector.h).

The container owns a raw buffer (the ArrayPtr collaborator from array_ptr.h,
which is not part of src/), a logical size and a capacity.  We embed a
container state as a structure holding the buffer contents as a list together
with the two counters.  The ArrayPtr collaborator is modelled from the spec:
allocating n slots yields n value-initialized (default) elements, indexed
access is unchecked, swap exchanges ownership, and moving from a buffer
leaves the source empty.

C++ move-transfer of an element value is modelled as a value copy, which is
the standard value-semantics reading of the code; out-of-range raw buffer
writes (undefined behaviour in the source) are modelled by List.set, which
leaves the list unchanged, and out-of-range reads by List.getD returning the
default element.  All claims are stated under the well-formedness hypotheses
that make the corresponding C++ defined.
-/

/-- State of a SimpleVector: the buffer contents (one entry per allocated
slot), the logical size and the capacity. -/
structure SimpleVector (α : Type) where
  items : List α
  size : Nat
  cap : Nat
deriving DecidableEq

variable {α : Type} [Inhabited α] [DecidableEq α]

namespace SimpleVector

/-- Modelled from the spec: the ArrayPtr buffer constructor allocates n
value-initialized slots (none for n = 0). -/
def arrayPtrNew (n : Nat) : List α :=
  List.replicate n default

/-- Model of std::copy of a known element sequence src into the buffer dst
starting at slot i: writes the elements one by one at successive indices.
Also models std::copy_backward and the overlapping shift in Erase, whose
results equal writing the pre-extracted source segment. -/
def copyInto (dst : List α) (i : Nat) (src : List α) : List α :=
  match src, i with
  | [], _ => dst
  | x :: xs, i => copyInto (dst.set i x) (i + 1) xs

/-- Elements of the buffer at slot positions in the half-open range from a
to b, i.e. the source range of an iterator pair. -/
def segment (l : List α) (a b : Nat) : List α :=
  (l.take b).drop a

/-- Logically live elements of a container: buffer slots 0 to size - 1. -/
def liveElems (v : SimpleVector α) : List α :=
  v.items.take v.size

/-- Well-formedness of a container state: the size does not exceed the
capacity and the buffer holds exactly cap slots. -/
def WF (v : SimpleVector α) : Prop :=
  v.size ≤ v.cap ∧ v.items.length = v.cap

instance (v : SimpleVector α) : Decidable (WF v) :=
  inferInstanceAs (Decidable (_ ∧ _))

/-- Size and capacity invariant stated by the spec: 0 ≤ size ≤ capacity and
capacity = 0 implies size = 0. -/
def Inv (v : SimpleVector α) : Prop :=
  v.size ≤ v.cap ∧ (v.cap = 0 → v.size = 0)

instance (v : SimpleVector α) : Decidable (Inv v) :=
  inferInstanceAs (Decidable (_ ∧ _))

/-- Default constructor: size 0, capacity 0, no allocation. -/
def emptyVec : SimpleVector α :=
  { items := [], size := 0, cap := 0 }

/-- Constructor SimpleVector(size): for nonzero size allocates a buffer of
size default elements and sets size and cap to it; otherwise stays empty. -/
def sizedCtor (n : Nat) : SimpleVector α :=
  if n = 0 then emptyVec
  else { items := arrayPtrNew n, size := n, cap := n }

/-- Constructor SimpleVector(size, value): builds sizedCtor size, fills the
range begin..end with value, then takes the buffer with size = cap = n. -/
def sizedValueCtor (n : Nat) (value : α) : SimpleVector α :=
  { items := copyInto ((sizedCtor n : SimpleVector α)).items 0
      (List.replicate ((sizedCtor n : SimpleVector α)).size value)
    size := n
    cap := n }

/-- Private helper Create(begin, end, size): builds sizedCtor size, writes
the source elements at successive indices from 0, then sets size and cap. -/
def create (src : List α) (n : Nat) : SimpleVector α :=
  { items := copyInto ((sizedCtor n : SimpleVector α)).items 0 src
    size := n
    cap := n }

/-- Constructor from an initializer list. -/
def fromList (l : List α) : SimpleVector α :=
  create l l.length

/-- Copy constructor: Create from the live range of the other container with
size equal to its size. -/
def copyCtor (v : SimpleVector α) : SimpleVector α :=
  create (liveElems v) v.size

/-- Constructor from a ReserveProxyObj: builds sizedCtor n, swaps it in and
resets the size to 0, keeping capacity n. -/
def reserveProxyCtor (n : Nat) : SimpleVector α :=
  { items := ((sizedCtor n : SimpleVector α)).items
    size := 0
    cap := ((sizedCtor n : SimpleVector α)).cap }

/-- Move constructor: the destination takes the buffer, size and capacity;
the source counters are exchanged with 0 and the moved-from buffer is left
empty (ArrayPtr move modelled from the spec: ownership transfer).  Returns
the pair (destination, source after the move). -/
def moveCtor (other : SimpleVector α) : SimpleVector α × SimpleVector α :=
  ({ items := other.items, size := other.size, cap := other.cap },
   { items := [], size := 0, cap := 0 })

/-- Comparison operator of the source: false when the sizes differ,
otherwise std::equal over the left live range against the right buffer. -/
def eqOp (a b : SimpleVector α) : Bool :=
  if a.size = b.size then decide (liveElems a = b.items.take a.size)
  else false

/-- Copy assignment: no-op when the two containers compare equal via the
comparison operator; otherwise a copy of the right-hand side is built and
swapped in. -/
def copyAssign (a b : SimpleVector α) : SimpleVector α :=
  if eqOp a b then a else copyCtor b

/-- Move assignment between distinct objects (the identity check this ==
addr rhs is false then): the target takes the buffer and the counters, the
source is reset to empty.  Returns (target, source after the move). -/
def moveAssign (_a b : SimpleVector α) : SimpleVector α × SimpleVector α :=
  ({ items := b.items, size := b.size, cap := b.cap },
   { items := [], size := 0, cap := 0 })

/-- Reserve(new_capacity): no-op when new_capacity is at most cap; otherwise
allocates a sizedCtor new_capacity buffer, move-copies the live range into
its front, swaps the buffers and updates cap.  Size is unchanged. -/
def reserveOp (v : SimpleVector α) (newCap : Nat) : SimpleVector α :=
  if newCap ≤ v.cap then v
  else
    { items := copyInto ((sizedCtor newCap : SimpleVector α)).items 0 (liveElems v)
      size := v.size
      cap := newCap }

/-- GetSize query. -/
def getSize (v : SimpleVector α) : Nat :=
  v.size

/-- GetCapacity query. -/
def getCapacity (v : SimpleVector α) : Nat :=
  v.cap

/-- IsEmpty query. -/
def isEmpty (v : SimpleVector α) : Bool :=
  if v.size = 0 then true else false

/-- Condition checked by the debug assertion in the unchecked index
operator: the source asserts index <= size_. -/
def opIndexAssert (v : SimpleVector α) (i : Nat) : Bool :=
  decide (i ≤ v.size)

/-- Unchecked element read items_[index]; out of range reads are undefined
behaviour in the source and modelled by the default element. -/
def opIndex (v : SimpleVector α) (i : Nat) : α :=
  v.items.getD i default

/-- Error signalled by the checked accessor. -/
inductive VecError : Type
  | outOfRange
deriving DecidableEq

/-- Checked access At(index): signals out_of_range when index >= size,
otherwise returns the element at slot index.  The source member function
never mutates the container. -/
def atOp (v : SimpleVector α) (i : Nat) : Except VecError α :=
  if v.size ≤ i then Except.error VecError.outOfRange
  else Except.ok (v.items.getD i default)

/-- Clear(): size becomes 0, capacity and buffer untouched. -/
def clearOp (v : SimpleVector α) : SimpleVector α :=
  { v with size := 0 }

/-- Resize(new_size), three branches exactly as in the source: shrink when
new_size < size; within capacity, write a default value into each slot of
the range from size to new_size and set size; beyond capacity, allocate
max new_size (cap * 2) slots, move the live range in, set size and cap. -/
def resizeOp (v : SimpleVector α) (newSize : Nat) : SimpleVector α :=
  if newSize < v.size then { v with size := newSize }
  else if newSize ≤ v.cap then
    { v with
      items := copyInto v.items v.size (List.replicate (newSize - v.size) default)
      size := newSize }
  else
    { items := copyInto ((sizedCtor (max newSize (v.cap * 2)) : SimpleVector α)).items 0
        (liveElems v)
      size := newSize
      cap := max newSize (v.cap * 2) }

/-- PushBack, three branches exactly as in the source: write at slot size
when size < cap; when cap = 0 allocate one slot, write at index size_ and
set cap to 1; otherwise allocate cap * 2 slots, copy the live range, write
at slot size and double cap.  Size is incremented in every branch.  The
copy and move overloads coincide in this value model. -/
def pushBack (v : SimpleVector α) (item : α) : SimpleVector α :=
  if v.size < v.cap then
    { v with items := v.items.set v.size item, size := v.size + 1 }
  else if v.cap = 0 then
    { items := ((sizedCtor 1 : SimpleVector α)).items.set v.size item
      size := v.size + 1
      cap := 1 }
  else
    { items := (copyInto ((sizedCtor (v.cap * 2) : SimpleVector α)).items 0 (liveElems v)).set
        v.size item
      size := v.size + 1
      cap := v.cap * 2 }

/-- Insert before the position at offset d from begin.  When cap = 0 it
degrades to PushBack and returns begin (offset 0).  With room available the
range from d to size is shifted one slot towards the end by a backward
copy, the value is written at slot d and size incremented.  When full, a
buffer of cap * 2 slots receives the front range, the value at slot d and
the tail range after it; cap doubles.  Returns the new state paired with
the offset of the returned iterator. -/
def insertOp (v : SimpleVector α) (d : Nat) (value : α) :
    SimpleVector α × Nat :=
  if v.cap = 0 then (pushBack v value, 0)
  else if v.size < v.cap then
    ({ v with
        items := (copyInto v.items (d + 1) (segment v.items d v.size)).set d value
        size := v.size + 1 }, d)
  else
    let t1 := copyInto ((sizedCtor (v.cap * 2) : SimpleVector α)).items 0 (segment v.items 0 d)
    let t2 := copyInto (t1.set d value) (d + 1) (segment v.items d v.size)
    ({ items := t2, size := v.size + 1, cap := v.cap * 2 }, d)

/-- PopBack: decrements size; precondition nonempty. -/
def popBack (v : SimpleVector α) : SimpleVector α :=
  { v with size := v.size - 1 }

/-- Erase at the position at offset d from begin: the range from d + 1 to
size is move-copied one slot towards the front and size decremented.
Returns the new state paired with the offset of the returned iterator. -/
def eraseOp (v : SimpleVector α) (d : Nat) : SimpleVector α × Nat :=
  ({ v with
      items := copyInto v.items d (segment v.items (d + 1) v.size)
      size := v.size - 1 }, d)

/-- Member swap: buffers, sizes and capacities are exchanged.  Returns the
pair (receiver, argument) after the exchange. -/
def swapOp (a b : SimpleVector α) : SimpleVector α × SimpleVector α :=
  ({ items := b.items, size := b.size, cap := b.cap },
   { items := a.items, size := a.size, cap := a.cap })

/-- Iterator returned by begin(): the null sentinel when cap = 0, otherwise
the address of slot 0, modelled as the offset into the buffer. -/
def beginIt (v : SimpleVector α) : Option Nat :=
  if v.cap = 0 then none else some 0

/-- Iterator returned by end(): the null sentinel when cap = 0, otherwise
the address of slot size. -/
def endIt (v : SimpleVector α) : Option Nat :=
  if v.cap = 0 then none else some v.size

theorem copyInto_nil (dst : List α) (i : Nat) : copyInto dst i [] = dst := rfl

theorem copyInto_cons (dst : List α) (i : Nat) (x : α) (xs : List α) :
    copyInto dst i (x :: xs) = copyInto (dst.set i x) (i + 1) xs := rfl

theorem copyInto_length (src : List α) :
    ∀ (dst : List α) (i : Nat), (copyInto dst i src).length = dst.length := by
  induction src with
  | nil => intro dst i; rfl
  | cons x xs ih =>
    intro dst i
    rw [copyInto_cons, ih, List.length_set]

theorem copyInto_append (src : List α) :
    ∀ (A B : List α), src.length ≤ B.length →
      copyInto (A ++ B) A.length src = A ++ src ++ B.drop src.length := by
  induction src with
  | nil => intro A B _; simp [copyInto_nil]
  | cons x xs ih =>
    intro A B h
    cases B with
    | nil => simp at h
    | cons b bs =>
      rw [copyInto_cons]
      have h1 : (A ++ b :: bs).set A.length x = (A ++ [x]) ++ bs := by
        rw [List.set_append_right _ _ (Nat.le_refl _)]
        simp
      have h2 : A.length + 1 = (A ++ [x]).length := by simp
      rw [h1, h2, ih (A ++ [x]) bs (by simpa using h)]
      simp [List.append_assoc]

theorem copyInto_eq (dst : List α) (i : Nat) (src : List α)
    (h : i + src.length ≤ dst.length) :
    copyInto dst i src = dst.take i ++ src ++ dst.drop (i + src.length) := by
  have hi : i ≤ dst.length := Nat.le_trans (Nat.le_add_right _ _) h
  have hsrc : src.length ≤ (dst.drop i).length := by
    simp only [List.length_drop]
    omega
  have hmain := copyInto_append src (dst.take i) (dst.drop i) hsrc
  rw [List.take_append_drop] at hmain
  rw [List.length_take, Nat.min_eq_left hi] at hmain
  rw [hmain, List.drop_drop]

theorem copyInto_replicate (src : List α) (n : Nat) (d : α)
    (h : src.length ≤ n) :
    copyInto (List.replicate n d) 0 src = src ++ List.replicate (n - src.length) d := by
  rw [copyInto_eq _ _ _ (by simpa using h)]
  simp

theorem getD_take (l : List α) (n i : Nat) (d : α) (h : i < n) :
    (l.take n).getD i d = l.getD i d := by
  simp [List.getD_eq_getElem?_getD, List.getElem?_take, h]

theorem getD_append_self (A B : List α) (x d : α) :
    (A ++ x :: B).getD A.length d = x := by
  simp [List.getD_eq_getElem?_getD, List.getElem?_append_right (Nat.le_refl A.length)]

theorem getD_append_lt (A B : List α) (i : Nat) (d : α) (h : i < A.length) :
    (A ++ B).getD i d = A.getD i d := by
  simp [List.getD_eq_getElem?_getD, List.getElem?_append_left h]

theorem segment_zero (l : List α) (b : Nat) : segment l 0 b = l.take b := by
  simp [segment]

theorem segment_length (l : List α) (a b : Nat) :
    (segment l a b).length = min b l.length - a := by
  simp [segment]

theorem liveElems_length (v : SimpleVector α) (h : WF v) :
    (liveElems v).length = v.size := by
  have h1 := h.1
  have h2 := h.2
  simp only [liveElems, List.length_take]
  omega

/-- Claim C5: the debug assertion guarding unchecked indexing checks
index <= size rather than index < size, so for every container it accepts
the index one past the last logically live element. -/
theorem c5_opIndexAssert_off_by_one (v : SimpleVector α) :
    (∀ i, opIndexAssert v i = true ↔ i ≤ v.size) ∧
    opIndexAssert v v.size = true := by
  constructor
  · intro i
    simp [opIndexAssert]
  · simp [opIndexAssert]

/-- Claim C6: checked access At(index) signals an out-of-range error if and
only if index >= size, and for index < size it returns the element at
logical position index.  The operation is modelled as a pure function of
the state, which the source never mutates. -/
theorem c6_at_checked (v : SimpleVector α) (i : Nat) :
    ((∃ e, atOp v i = Except.error e) ↔ v.size ≤ i) ∧
    (i < v.size → atOp v i = Except.ok ((liveElems v).getD i default)) := by
  constructor
  · constructor
    · rintro ⟨e, he⟩
      by_contra hlt
      simp [atOp, hlt] at he
    · intro hge
      exact ⟨VecError.outOfRange, by simp [atOp, hge]⟩
  · intro hlt
    rw [atOp, if_neg (by omega), liveElems, getD_take _ _ _ _ hlt]

/-- Witness for C6 at a concrete container. -/
theorem c6_at_checked_witness :
    atOp (fromList [5, 6, 7] : SimpleVector Nat) 2 = Except.ok 7 :=
  (c6_at_checked (fromList [5, 6, 7] : SimpleVector Nat) 2).2 (by decide)

/-- Claim C7: move construction and move assignment from a source container
leave the source with size 0 and capacity 0 and give the destination the
logical content (size and live elements in order) the source had before
the move. -/
theorem c7_move_spec (t s : SimpleVector α) :
    (moveCtor s).2.size = 0 ∧ (moveCtor s).2.cap = 0 ∧
    (moveCtor s).1.size = s.size ∧ liveElems (moveCtor s).1 = liveElems s ∧
    (moveAssign t s).2.size = 0 ∧ (moveAssign t s).2.cap = 0 ∧
    (moveAssign t s).1.size = s.size ∧
    liveElems (moveAssign t s).1 = liveElems s :=
  ⟨rfl, rfl, rfl, rfl, rfl, rfl, rfl, rfl⟩

/-- Claim C9: member swap exchanges the entire observable states of the two
containers: buffer contents, size and capacity. -/
theorem c9_swap_exchanges (a b : SimpleVector α) :
    swapOp a b = (b, a) :=
  rfl

/-- Claim C10: begin() equals end() exactly when the container is empty; a
zero-capacity container returns the null sentinel from both, and a
container with positive capacity never returns the null sentinel. -/
theorem c10_begin_end (v : SimpleVector α) (h : Inv v) :
    (beginIt v = endIt v ↔ v.size = 0) ∧
    (v.cap = 0 → beginIt v = none ∧ endIt v = none) ∧
    (0 < v.cap → beginIt v ≠ none ∧ endIt v ≠ none) := by
  by_cases hc : v.cap = 0
  · have hs := h.2 hc
    simp [beginIt, endIt, hc, hs]
  · simp only [beginIt, endIt, if_neg hc]
    refine ⟨?_, fun h0 => absurd h0 hc, fun _ => ⟨by simp, by simp⟩⟩
    constructor
    · intro he
      exact (Option.some_inj.mp he).symm
    · intro hs
      rw [hs]

/-- Witness for C10 at concrete containers. -/
theorem c10_begin_end_witness :
    beginIt (fromList [4] : SimpleVector Nat) ≠ endIt (fromList [4]) := by
  have h := (c10_begin_end (fromList [4] : SimpleVector Nat) (by decide)).1
  intro he
  exact absurd (h.mp he) (by decide)

theorem Inv_mk (is : List α) (s c : Nat) (h1 : s ≤ c) (h2 : c = 0 → s = 0) :
    Inv { items := is, size := s, cap := c } :=
  ⟨h1, h2⟩

/-- Claim C8: every public operation, invoked with its stated preconditions
on containers satisfying the size and capacity invariant (size at most
capacity, and size 0 whenever capacity is 0), leaves every container it
touches satisfying the invariant: all constructors, both assignments,
Reserve, Clear, Resize, PushBack, Insert, PopBack, Erase and swap. -/
theorem c8_invariant_preserved (a b v : SimpleVector α) (x : α) (n d : Nat)
    (l : List α) (ha : Inv a) (hb : Inv b) (hv : Inv v) :
    Inv (emptyVec : SimpleVector α) ∧
    Inv ((sizedCtor n : SimpleVector α)) ∧
    Inv (sizedValueCtor n x) ∧
    Inv (fromList l) ∧
    Inv (copyCtor v) ∧
    Inv ((reserveProxyCtor n : SimpleVector α)) ∧
    Inv (moveCtor v).1 ∧ Inv (moveCtor v).2 ∧
    Inv (copyAssign a b) ∧
    Inv (moveAssign a b).1 ∧ Inv (moveAssign a b).2 ∧
    Inv (reserveOp v n) ∧
    Inv (clearOp v) ∧
    Inv (resizeOp v n) ∧
    Inv (pushBack v x) ∧
    (d ≤ v.size → Inv (insertOp v d x).1) ∧
    (0 < v.size → Inv (popBack v)) ∧
    (d < v.size → Inv (eraseOp v d).1) ∧
    Inv (swapOp a b).1 ∧ Inv (swapOp a b).2 := by
  obtain ⟨hv1, hv2⟩ := hv
  have hpush : Inv (pushBack v x) := by
    rw [pushBack]
    split
    · exact Inv_mk _ _ _ (by omega) (fun hc => by omega)
    · split
      · next hc =>
        exact Inv_mk _ _ _ (by have := hv2 hc; omega) (fun h1 => by omega)
      · next hlt hc =>
        exact Inv_mk _ _ _ (by omega) (fun h2 => by omega)
  refine ⟨⟨Nat.le_refl 0, fun _ => rfl⟩, ?_, ⟨Nat.le_refl n, fun h => h⟩,
    ⟨Nat.le_refl _, fun h => h⟩, ⟨Nat.le_refl _, fun h => h⟩,
    ⟨Nat.zero_le _, fun _ => rfl⟩, ⟨hv1, hv2⟩, ⟨Nat.le_refl 0, fun _ => rfl⟩,
    ?_, hb, ⟨Nat.le_refl 0, fun _ => rfl⟩, ?_, ⟨Nat.zero_le _, fun _ => rfl⟩,
    ?_, hpush, ?_, ?_, ?_, hb, ha⟩
  · rw [sizedCtor]
    split
    · exact ⟨Nat.le_refl 0, fun _ => rfl⟩
    · exact ⟨Nat.le_refl n, fun h => h⟩
  · rw [copyAssign]
    split
    · exact ha
    · exact ⟨Nat.le_refl _, fun h => h⟩
  · rw [reserveOp]
    split
    · exact ⟨hv1, hv2⟩
    · next hgt => exact Inv_mk _ _ _ (by omega) (fun hc => by omega)
  · rw [resizeOp]
    split
    · next h1 =>
      exact Inv_mk _ _ _ (by omega) (fun hc => by have := hv2 hc; omega)
    · split
      · next h1 h2 => exact Inv_mk _ _ _ h2 (fun hc => by omega)
      · next h1 h2 =>
        exact Inv_mk _ _ _ (Nat.le_max_left _ _) (fun hc => by omega)
  · intro hd
    rw [insertOp]
    split
    · exact hpush
    · split
      · next hc hlt => exact Inv_mk _ _ _ (by omega) (fun h1 => by omega)
      · next hc hge => exact Inv_mk _ _ _ (by omega) (fun h2 => by omega)
  · intro hs
    rw [popBack]
    exact Inv_mk _ _ _ (by omega) (fun hc => by have := hv2 hc; omega)
  · intro hd
    rw [eraseOp]
    exact Inv_mk _ _ _ (by omega) (fun hc => by have := hv2 hc; omega)

/-- Witness for C8 at concrete containers. -/
theorem c8_invariant_preserved_witness :
    Inv (pushBack (fromList [1, 2] : SimpleVector Nat) 5) :=
  (c8_invariant_preserved (fromList [1] : SimpleVector Nat) (fromList [2, 3])
    (fromList [1, 2]) 5 3 1 [4] (by decide) (by decide)
    (by decide)).2.2.2.2.2.2.2.2.2.2.2.2.2.2.1

theorem getD_set_self (l : List α) (i : Nat) (x d : α) (h : i < l.length) :
    (l.set i x).getD i d = x := by
  simp [List.getD_eq_getElem?_getD, List.getElem?_set_self h]

theorem take_set_concat (l : List α) (i : Nat) (x : α) (h : i < l.length) :
    (l.set i x).take (i + 1) = l.take i ++ [x] := by
  rw [List.set_eq_take_cons_drop x h]
  have hlen : (l.take i).length = i := by
    simp only [List.length_take]
    omega
  calc (l.take i ++ x :: l.drop (i + 1)).take (i + 1)
      = (l.take i ++ x :: l.drop (i + 1)).take ((l.take i).length + 1) := by
        rw [hlen]
    _ = l.take i ++ (x :: l.drop (i + 1)).take 1 := List.take_append 1
    _ = l.take i ++ [x] := by simp

/-- Claim C1: PushBack with size < capacity stores the value at slot size
and increments size, capacity unchanged; with capacity 0 the result has
size 1, capacity 1 and the sole element is the pushed value; when
size = capacity > 0 the capacity doubles, the existing elements are
preserved in order, the value lands at the old size position and size is
incremented. -/
theorem c1_pushBack_spec (v : SimpleVector α) (x : α) (h : WF v) :
    (v.size < v.cap →
      (pushBack v x).size = v.size + 1 ∧ (pushBack v x).cap = v.cap ∧
      opIndex (pushBack v x) v.size = x ∧
      liveElems (pushBack v x) = liveElems v ++ [x]) ∧
    (v.cap = 0 →
      (pushBack v x).size = 1 ∧ (pushBack v x).cap = 1 ∧
      liveElems (pushBack v x) = [x]) ∧
    (v.size = v.cap ∧ 0 < v.cap →
      (pushBack v x).size = v.size + 1 ∧ (pushBack v x).cap = v.cap * 2 ∧
      opIndex (pushBack v x) v.size = x ∧
      liveElems (pushBack v x) = liveElems v ++ [x]) := by
  obtain ⟨hsc, hlen⟩ := h
  refine ⟨?_, ?_, ?_⟩
  · intro hlt
    rw [pushBack, if_pos hlt]
    have hil : v.size < v.items.length := by omega
    refine ⟨rfl, rfl, ?_, ?_⟩
    · exact getD_set_self _ _ _ _ hil
    · show (v.items.set v.size x).take (v.size + 1) = liveElems v ++ [x]
      rw [take_set_concat _ _ _ hil]
      rfl
  · intro hc
    have hs0 : v.size = 0 := by omega
    rw [pushBack, if_neg (by omega), if_pos hc]
    refine ⟨by rw [hs0], rfl, ?_⟩
    show (((sizedCtor 1 : SimpleVector α)).items.set v.size x).take (v.size + 1) = [x]
    rw [hs0]
    rfl
  · rintro ⟨heq, hpos⟩
    rw [pushBack, if_neg (by omega), if_neg (by omega)]
    have hitems :
        (copyInto ((sizedCtor (v.cap * 2) : SimpleVector α)).items 0 (liveElems v)).set
          v.size x
        = liveElems v ++ x :: List.replicate (v.cap - 1) default := by
      have hcc : ¬ v.cap * 2 = 0 := by omega
      rw [sizedCtor, if_neg hcc]
      show (copyInto (arrayPtrNew (v.cap * 2)) 0 (liveElems v)).set v.size x
        = _
      rw [arrayPtrNew,
        copyInto_replicate _ _ _ (by rw [liveElems_length v ⟨hsc, hlen⟩]; omega)]
      rw [List.set_append_right _ _ (by rw [liveElems_length v ⟨hsc, hlen⟩])]
      rw [liveElems_length v ⟨hsc, hlen⟩, Nat.sub_self]
      have hrep : v.cap * 2 - v.size = (v.cap - 1) + 1 := by omega
      rw [hrep, List.replicate_succ, List.set_cons_zero]
    refine ⟨rfl, rfl, ?_, ?_⟩
    · show ((copyInto ((sizedCtor (v.cap * 2) : SimpleVector α)).items 0
          (liveElems v)).set v.size x).getD v.size default = x
      rw [hitems]
      have hg := getD_append_self (liveElems v)
        (List.replicate (v.cap - 1) default) x default
      rw [liveElems_length v ⟨hsc, hlen⟩] at hg
      exact hg
    · show ((copyInto ((sizedCtor (v.cap * 2) : SimpleVector α)).items 0
          (liveElems v)).set v.size x).take (v.size + 1)
        = liveElems v ++ [x]
      rw [hitems]
      have ht := @List.take_append _ (liveElems v) (x :: List.replicate (v.cap - 1) default) 1
      rw [liveElems_length v ⟨hsc, hlen⟩] at ht
      rw [ht]
      rfl

/-- Witness for C1 at a concrete container. -/
theorem c1_pushBack_spec_witness :
    liveElems (pushBack (fromList [1, 2] : SimpleVector Nat) 7) = [1, 2, 7] :=
  ((c1_pushBack_spec (fromList [1, 2] : SimpleVector Nat) 7 (by decide)).2.2
    ⟨by decide, by decide⟩).2.2.2

theorem getD_append_ge (A B : List α) (i : Nat) (d : α) (h : A.length ≤ i) :
    (A ++ B).getD i d = B.getD (i - A.length) d := by
  simp [List.getD_eq_getElem?_getD, List.getElem?_append_right h]

theorem getD_replicate (n i : Nat) (a d : α) (h : i < n) :
    (List.replicate n a).getD i d = a := by
  simp [List.getD_eq_getElem?_getD, List.getElem?_replicate_of_lt h]

/-- Claim C3: Resize(newSize) with size <= newSize <= capacity sets size to
newSize, keeps the capacity, fills the newly visible slots from the old
size to newSize with a default-constructed value and leaves the elements
before the old size unchanged. -/
theorem c3_resize_within (v : SimpleVector α) (n : Nat) (h : WF v)
    (h1 : v.size ≤ n) (h2 : n ≤ v.cap) :
    (resizeOp v n).size = n ∧ (resizeOp v n).cap = v.cap ∧
    (∀ i, v.size ≤ i → i < n → opIndex (resizeOp v n) i = default) ∧
    (∀ i, i < v.size → opIndex (resizeOp v n) i = opIndex v i) := by
  obtain ⟨hsc, hlen⟩ := h
  rw [resizeOp, if_neg (by omega), if_pos h2]
  have hcopy : copyInto v.items v.size (List.replicate (n - v.size) default)
      = v.items.take v.size ++ List.replicate (n - v.size) default
        ++ v.items.drop (v.size + (n - v.size)) := by
    have hc := copyInto_eq v.items v.size
      (List.replicate (n - v.size) default)
      (by simp only [List.length_replicate]; omega)
    simpa using hc
  have hA : (v.items.take v.size).length = v.size := by
    simp only [List.length_take]
    omega
  refine ⟨rfl, rfl, ?_, ?_⟩
  · intro i hge hlt
    show (copyInto v.items v.size (List.replicate (n - v.size) default)).getD
      i default = default
    rw [hcopy, List.append_assoc,
      getD_append_ge _ _ _ _ (by rw [hA]; omega),
      getD_append_lt _ _ _ _
        (by simp only [List.length_replicate]; omega),
      getD_replicate _ _ _ _ (by omega)]
  · intro i hlt
    show (copyInto v.items v.size (List.replicate (n - v.size) default)).getD
      i default = opIndex v i
    rw [hcopy, List.append_assoc,
      getD_append_lt _ _ _ _ (by rw [hA]; omega),
      getD_take _ _ _ _ hlt]
    rfl

/-- Witness for C3 at a concrete container. -/
theorem c3_resize_within_witness :
    opIndex (resizeOp (pushBack (reserveProxyCtor 5 : SimpleVector Nat) 7) 3) 2
      = 0 :=
  (c3_resize_within (pushBack (reserveProxyCtor 5 : SimpleVector Nat) 7) 3
    (by decide) (by decide) (by decide)).2.2.1 2 (by decide) (by decide)

theorem copyCtor_items (b : SimpleVector α) (h : WF b) :
    (copyCtor b).items = liveElems b := by
  show copyInto ((sizedCtor b.size : SimpleVector α)).items 0 (liveElems b) = liveElems b
  by_cases hz : b.size = 0
  · have hl : liveElems b = [] := by
      rw [liveElems, hz]
      rfl
    rw [hl, hz]
    rfl
  · rw [sizedCtor, if_neg hz]
    show copyInto (arrayPtrNew b.size) 0 (liveElems b) = liveElems b
    rw [arrayPtrNew, copyInto_replicate _ _ _ (by rw [liveElems_length b h])]
    rw [liveElems_length b h, Nat.sub_self]
    simp

/-- Claim C4: copy assignment is a no-op leaving the target entirely
unchanged (capacity included) whenever the two containers compare
value-equal, even as distinct objects; otherwise the target becomes a deep
copy of the right-hand side, element-wise equal to it.  The right-hand
side is a value argument in this model, hence trivially unchanged. -/
theorem c4_copyAssign_spec (a b : SimpleVector α) (h : WF b) :
    (eqOp a b = true → copyAssign a b = a) ∧
    (eqOp a b = false → eqOp (copyAssign a b) b = true) := by
  constructor
  · intro he
    rw [copyAssign, if_pos he]
  · intro he
    rw [copyAssign, if_neg (by rw [he]; exact Bool.false_ne_true)]
    rw [eqOp, if_pos (show (copyCtor b).size = b.size from rfl),
      decide_eq_true_eq]
    show (copyCtor b).items.take (copyCtor b).size = b.items.take b.size
    rw [copyCtor_items b h]
    show (liveElems b).take b.size = b.items.take b.size
    rw [liveElems, List.take_take, Nat.min_self]

/-- Witness for C4 at concrete containers. -/
theorem c4_copyAssign_spec_witness :
    eqOp (copyAssign (fromList [1] : SimpleVector Nat) (fromList [2, 3]))
      (fromList [2, 3]) = true :=
  (c4_copyAssign_spec (fromList [1] : SimpleVector Nat) (fromList [2, 3])
    (by decide)).2 (by decide)

theorem insertOp_full_shape (v : SimpleVector α) (d : Nat) (x : α)
    (hc : ¬ v.cap = 0) (hge : ¬ v.size < v.cap) :
    (insertOp v d x).1.items
      = copyInto ((copyInto ((sizedCtor (v.cap * 2) : SimpleVector α)).items 0
          (segment v.items 0 d)).set d x) (d + 1) (segment v.items d v.size)
      ∧ (insertOp v d x).1.size = v.size + 1 := by
  rw [insertOp, if_neg hc, if_neg hge]
  exact ⟨rfl, rfl⟩

theorem insert_items (v : SimpleVector α) (d : Nat) (x : α) (h : WF v)
    (hd : d ≤ v.size) :
    (insertOp v d x).1.size = v.size + 1 ∧
    v.size + 1 ≤ (insertOp v d x).1.items.length ∧
    ∃ rest : List α,
      (insertOp v d x).1.items
        = v.items.take d ++ (x :: (segment v.items d v.size ++ rest)) := by
  obtain ⟨hsc, hlen⟩ := h
  by_cases hc : v.cap = 0
  · have hs0 : v.size = 0 := by omega
    have hd0 : d = 0 := by omega
    rw [insertOp, if_pos hc, pushBack, if_neg (by omega), if_pos hc]
    refine ⟨rfl, ?_, [], ?_⟩
    · show v.size + 1 ≤ (((sizedCtor 1 : SimpleVector α)).items.set v.size x).length
      rw [List.length_set, hs0]
      rfl
    · show ((sizedCtor 1 : SimpleVector α)).items.set v.size x
        = v.items.take d ++ (x :: (segment v.items d v.size ++ []))
      rw [hd0, hs0]
      rfl
  · by_cases hlt : v.size < v.cap
    · rw [insertOp, if_neg hc, if_pos hlt]
      have hseg : (segment v.items d v.size).length = v.size - d := by
        rw [segment_length]
        omega
      have hci : copyInto v.items (d + 1) (segment v.items d v.size)
          = v.items.take (d + 1) ++ segment v.items d v.size
            ++ v.items.drop (v.size + 1) := by
        have hc2 := copyInto_eq v.items (d + 1) (segment v.items d v.size)
          (by rw [hseg]; omega)
        have harith : d + 1 + (segment v.items d v.size).length = v.size + 1 := by
          rw [hseg]
          omega
        rw [harith] at hc2
        exact hc2
      refine ⟨rfl, ?_, v.items.drop (v.size + 1), ?_⟩
      · show v.size + 1 ≤
          ((copyInto v.items (d + 1) (segment v.items d v.size)).set d x).length
        rw [List.length_set, copyInto_length]
        omega
      · show (copyInto v.items (d + 1) (segment v.items d v.size)).set d x
          = v.items.take d ++
            (x :: (segment v.items d v.size ++ v.items.drop (v.size + 1)))
        rw [hci, List.append_assoc,
          List.set_append_left _ _ (by simp only [List.length_take]; omega),
          ← List.set_take, take_set_concat _ _ _ (by omega),
          List.append_assoc]
        rfl
    · have hsz : v.size = v.cap := by omega
      obtain ⟨hitems, hsize⟩ := insertOp_full_shape v d x hc hlt
      have hA : (v.items.take d).length = d := by
        simp only [List.length_take]
        omega
      have ht1 : copyInto ((sizedCtor (v.cap * 2) : SimpleVector α)).items 0
          (segment v.items 0 d)
          = v.items.take d ++ List.replicate (v.cap * 2 - d) default := by
        rw [sizedCtor, if_neg (by omega)]
        show copyInto (arrayPtrNew (v.cap * 2)) 0 (segment v.items 0 d) = _
        rw [arrayPtrNew, segment_zero,
          copyInto_replicate _ _ _ (by rw [hA]; omega), hA]
      have ht2 : (v.items.take d ++
            List.replicate (v.cap * 2 - d) default).set d x
          = v.items.take d ++
            (x :: List.replicate (v.cap * 2 - d - 1) default) := by
        rw [List.set_append_right _ _ (by rw [hA]), hA, Nat.sub_self,
          show v.cap * 2 - d = (v.cap * 2 - d - 1) + 1 by omega,
          List.replicate_succ, List.set_cons_zero]
        rfl
      have hseg : (segment v.items d v.size).length = v.size - d := by
        rw [segment_length]
        omega
      have hdst : (v.items.take d ++
          (x :: List.replicate (v.cap * 2 - d - 1) default)).length
          = v.cap * 2 := by
        simp only [List.length_append, List.length_cons, List.length_replicate,
          hA]
        omega
      have ht3 : copyInto (v.items.take d ++
            (x :: List.replicate (v.cap * 2 - d - 1) default)) (d + 1)
            (segment v.items d v.size)
          = v.items.take d ++ (x :: (segment v.items d v.size ++
              (v.items.take d ++
                (x :: List.replicate (v.cap * 2 - d - 1) default)).drop
                (v.size + 1))) := by
        have hc3 := copyInto_eq
          (v.items.take d ++ (x :: List.replicate (v.cap * 2 - d - 1) default))
          (d + 1) (segment v.items d v.size)
          (by rw [hseg, hdst]; omega)
        have harith : d + 1 + (segment v.items d v.size).length
            = v.size + 1 := by
          rw [hseg]
          omega
        rw [harith] at hc3
        have htk : (v.items.take d ++
            (x :: List.replicate (v.cap * 2 - d - 1) default)).take (d + 1)
            = v.items.take d ++ [x] := by
          have h4 := @List.take_append _ (v.items.take d) (x :: List.replicate (v.cap * 2 - d - 1) default) 1
          rw [hA] at h4
          rw [h4]
          rfl
        rw [htk, List.append_assoc, List.append_assoc] at hc3
        rw [hc3]
        rfl
      refine ⟨hsize, ?_, (v.items.take d ++
        (x :: List.replicate (v.cap * 2 - d - 1) default)).drop (v.size + 1),
        ?_⟩
      · rw [hitems, ht1, ht2, ht3]
        simp only [List.length_append, List.length_cons, List.length_take]
        omega
      · rw [hitems, ht1, ht2, ht3]

theorem erase_shape (w : SimpleVector α) (d : Nat) (hd : d < w.size)
    (hlen : w.size ≤ w.items.length) :
    (eraseOp w d).1.size = w.size - 1 ∧
    liveElems (eraseOp w d).1
      = w.items.take d ++ segment w.items (d + 1) w.size := by
  have hseg : (segment w.items (d + 1) w.size).length = w.size - d - 1 := by
    rw [segment_length]
    omega
  have hci : copyInto w.items d (segment w.items (d + 1) w.size)
      = w.items.take d ++ segment w.items (d + 1) w.size
        ++ w.items.drop (w.size - 1) := by
    have hc2 := copyInto_eq w.items d (segment w.items (d + 1) w.size)
      (by rw [hseg]; omega)
    have harith : d + (segment w.items (d + 1) w.size).length
        = w.size - 1 := by
      rw [hseg]
      omega
    rw [harith] at hc2
    exact hc2
  refine ⟨rfl, ?_⟩
  show (copyInto w.items d (segment w.items (d + 1) w.size)).take (w.size - 1)
    = w.items.take d ++ segment w.items (d + 1) w.size
  rw [hci, List.append_assoc]
  have hA : (w.items.take d).length = d := by
    simp only [List.length_take]
    omega
  have h4 := @List.take_append _ (w.items.take d) (segment w.items (d + 1) w.size ++ w.items.drop (w.size - 1))
    (w.size - 1 - d)
  rw [hA, show d + (w.size - 1 - d) = w.size - 1 by omega] at h4
  rw [h4]
  have h5 := @List.take_append _ (segment w.items (d + 1) w.size) (w.items.drop (w.size - 1)) 0
  rw [hseg, show w.size - d - 1 + 0 = w.size - 1 - d by omega] at h5
  rw [h5]
  simp

/-- Claim C2: for a well-formed container, a valid position d and a value
x, erasing at position d immediately after inserting x at position d
yields a container that the comparison operator of the source reports
equal to the original. -/
theorem c2_insert_erase_roundtrip (v : SimpleVector α) (d : Nat) (x : α)
    (h : WF v) (hd : d ≤ v.size) :
    eqOp (eraseOp (insertOp v d x).1 d).1 v = true := by
  obtain ⟨hsz, hlen2, rest, hitems⟩ := insert_items v d x h hd
  have hdlt : d < (insertOp v d x).1.size := by omega
  have hwlen : (insertOp v d x).1.size ≤ (insertOp v d x).1.items.length := by
    omega
  obtain ⟨hesz, helive⟩ := erase_shape (insertOp v d x).1 d hdlt hwlen
  have hA : (v.items.take d).length = d := by
    have h1 := h.1
    have h2 := h.2
    simp only [List.length_take]
    omega
  have hseglen : (segment v.items d v.size).length = v.size - d := by
    have h1 := h.1
    have h2 := h.2
    rw [segment_length]
    omega
  have htake : (insertOp v d x).1.items.take d = v.items.take d := by
    rw [hitems]
    have h4 := @List.take_append _ (v.items.take d) (x :: (segment v.items d v.size ++ rest)) 0
    rw [hA, Nat.add_zero] at h4
    rw [h4]
    simp
  have hsegeq : segment (insertOp v d x).1.items (d + 1)
      (insertOp v d x).1.size = segment v.items d v.size := by
    rw [segment, hsz, hitems]
    have h4 := @List.take_append _ (v.items.take d) (x :: (segment v.items d v.size ++ rest)) (v.size + 1 - d)
    rw [hA, show d + (v.size + 1 - d) = v.size + 1 by omega] at h4
    rw [h4, show v.size + 1 - d = (v.size - d) + 1 by omega,
      List.take_succ_cons]
    have h5 := @List.take_append _ (segment v.items d v.size) (rest) 0
    rw [hseglen, Nat.add_zero] at h5
    rw [h5, List.take_zero, List.append_nil]
    rw [List.append_cons]
    have h6 := @List.drop_append _ (v.items.take d ++ [x]) (segment v.items d v.size) 0
    rw [List.length_append, hA, List.length_cons, List.length_nil,
      Nat.add_zero] at h6
    rw [h6, List.drop_zero]
  have hfinal : v.items.take d ++ segment v.items d v.size = liveElems v := by
    rw [segment, liveElems,
      show v.items.take d = (v.items.take v.size).take d by
        rw [List.take_take, Nat.min_eq_left hd]]
    exact List.take_append_drop d (v.items.take v.size)
  have hes2 : (eraseOp (insertOp v d x).1 d).1.size = v.size := by omega
  rw [eqOp, if_pos hes2, decide_eq_true_eq, helive, htake, hsegeq, hfinal,
    hes2]
  rfl

/-- Witness for C2 at a concrete container, position and value. -/
theorem c2_insert_erase_roundtrip_witness :
    eqOp (eraseOp (insertOp (fromList [1, 2, 3] : SimpleVector Nat) 1 9).1 1).1
      (fromList [1, 2, 3]) = true :=
  c2_insert_erase_roundtrip (fromList [1, 2, 3] : SimpleVector Nat) 1 9
    (by decide) (by decide)

end SimpleVector
